import Mathlib

/-!
Verification of the custom ReAct agent loop
(`src/Llama_index_sandbox/custom_react_agent/ReActAgent.py`).

Python strings are embedded as `List Char`.  The JSON fragment handled by the
embedding of `json.loads` / `json.dumps` is the one exercised by the agent's
action-input records: objects with string keys, and string / integer / boolean /
null / array / object values, with the printable-ASCII escapes `\" \\ \/ \n \t
\r \b \f`.  Float literals and `\uXXXX` escapes are outside the modelled
fragment.
-/

namespace RagAgent

/-- A Python `str`, embedded as its sequence of characters. -/
abbrev PyStr := List Char

/-- The whitespace characters removed by Python `str.strip()` (ASCII fragment:
space, tab, newline, carriage return, vertical tab, form feed). -/
def isPySpace (c : Char) : Bool :=
  c == ' ' || c == '\t' || c == '\n' || c == '\r' || c == Char.ofNat 11 || c == Char.ofNat 12

/-- Python `str.strip()`: drop leading and trailing whitespace. -/
def pyStrip (s : PyStr) : PyStr :=
  ((s.dropWhile isPySpace).reverse.dropWhile isPySpace).reverse

/-- Python `sep in s` (substring containment): some index of `s` starts an
occurrence of `p`. -/
def hasSubstr (s p : PyStr) : Bool :=
  (List.range (s.length + 1)).any fun i => p.isPrefixOf (s.drop i)

/-- Number of indices of `s` at which an occurrence of `p` starts. -/
def occIdxCount (s p : PyStr) : Nat :=
  (List.range (s.length + 1)).countP fun i => p.isPrefixOf (s.drop i)

/-- Fuel-indexed scan of Python `s.split(sep)`: split on non-overlapping
occurrences, scanning left to right.  One unit of fuel is spent per scan step
and every step consumes at least one character, so fuel `s.length` (as supplied
by `splitOnSub`) never runs out. -/
def splitFuel (sep : PyStr) : Nat → PyStr → List PyStr
  | _, [] => [[]]
  | 0, s => [s]
  | fuel + 1, c :: rest =>
    if sep.isPrefixOf (c :: rest) && !sep.isEmpty then
      [] :: splitFuel sep fuel (rest.drop (sep.length - 1))
    else
      match splitFuel sep fuel rest with
      | [] => [[c]]
      | h :: t => (c :: h) :: t

/-- Python `s.split(sep)` for a non-empty `sep`.  (Python raises on an empty
separator; the agent only ever splits on the literal `'Action Input:'`, which
is non-empty, so the `sep = []` branch of the guard is never exercised.) -/
def splitOnSub (sep s : PyStr) : List PyStr := splitFuel sep s.length s

/-- Fuel-indexed scan of Python `s.replace(old, new)`: replace non-overlapping
occurrences left to right.  One unit of fuel is spent per scan step and every
step consumes at least one character, so fuel `s.length` (as supplied by
`replaceAll`) never runs out. -/
def replaceFuel (old new : PyStr) : Nat → PyStr → PyStr
  | _, [] => []
  | 0, s => s
  | fuel + 1, c :: rest =>
    if old.isPrefixOf (c :: rest) && !old.isEmpty then
      new ++ replaceFuel old new fuel (rest.drop (old.length - 1))
    else
      c :: replaceFuel old new fuel rest

/-- Python `s.replace(old, new)` (the agent only replaces a parsed JSON text,
which is never empty, so the `old = []` branch of the guard is never
exercised). -/
def replaceAll (s old new : PyStr) : PyStr := replaceFuel old new s.length s

/-- Python `dict` lookup on an insertion-ordered association list. -/
def dictLookup {α : Type} : List (PyStr × α) → PyStr → Option α
  | [], _ => none
  | (k2, v) :: rest, k => if k2 = k then some v else dictLookup rest k

/-- Python `d[k] = v` on an insertion-ordered association list: overwrite in
place if the key exists (keeping its position), else append. -/
def dictSet {α : Type} : List (PyStr × α) → PyStr → α → List (PyStr × α)
  | [], k, v => [(k, v)]
  | (k2, v2) :: rest, k, v =>
    if k2 = k then (k2, v) :: rest else (k2, v2) :: dictSet rest k v

/-! ## JSON values (`json.loads` / `json.dumps` on the modelled fragment) -/

/-- A JSON value as produced by `json.loads` on the modelled fragment.
Objects are insertion-ordered association lists (Python `dict`s). -/
inductive JVal where
  | jnull
  | jbool (b : Bool)
  | jnum (n : Int)
  | jstr (s : PyStr)
  | jarr (elems : List JVal)
  | jobj (fields : List (PyStr × JVal))

/-- JSON inter-token whitespace. -/
def isJsonWs (c : Char) : Bool :=
  c == ' ' || c == '\t' || c == '\n' || c == '\r'

/-- Skip JSON inter-token whitespace. -/
def skipWs (s : PyStr) : PyStr := s.dropWhile isJsonWs

/-- Decode one JSON string escape character (without `\uXXXX`, which is outside
the modelled fragment). -/
def escDecode (e : Char) : Option Char :=
  if e == '"' then some '"'
  else if e == '\\' then some '\\'
  else if e == '/' then some '/'
  else if e == 'n' then some '\n'
  else if e == 't' then some '\t'
  else if e == 'r' then some '\r'
  else if e == 'b' then some (Char.ofNat 8)
  else if e == 'f' then some (Char.ofNat 12)
  else none

/-- Parse the body of a JSON string, after the opening quote; returns the
decoded characters and the remainder after the closing quote.  Raw control
characters are rejected, as in strict-mode `json.loads`. -/
def parseStringBody : PyStr → Option (PyStr × PyStr)
  | [] => none
  | c :: rest =>
    if c == '"' then some ([], rest)
    else if c == '\\' then
      match rest with
      | [] => none
      | e :: rest2 =>
        match escDecode e with
        | some d =>
          match parseStringBody rest2 with
          | some (cs, r) => some (d :: cs, r)
          | none => none
        | none => none
    else if c.toNat < 32 then none
    else
      match parseStringBody rest with
      | some (cs, r) => some (c :: cs, r)
      | none => none

/-- Digit run of a decimal literal to a natural number. -/
def digitsToNat (ds : PyStr) : Nat :=
  ds.foldl (fun acc c => acc * 10 + (c.toNat - 48)) 0

/-- Parse an unsigned JSON integer literal (leading zeros rejected; a following
`.`, `e` or `E` would start a float literal, which is outside the modelled
fragment). -/
def parseUNum (s : PyStr) : Option (Nat × PyStr) :=
  let ds := s.takeWhile Char.isDigit
  let rest := s.dropWhile Char.isDigit
  if ds.isEmpty then none
  else if 1 < ds.length && ds.headD '0' == '0' then none
  else
    match rest with
    | '.' :: _ => none
    | 'e' :: _ => none
    | 'E' :: _ => none
    | _ => some (digitsToNat ds, rest)

/-- Parse a JSON number token (optionally signed integer on the modelled
fragment). -/
def parseNumberTok (s : PyStr) : Option (JVal × PyStr) :=
  match s with
  | '-' :: rest =>
    match parseUNum rest with
    | some (v, r) => some (JVal.jnum (-(v : Int)), r)
    | none => none
  | _ =>
    match parseUNum s with
    | some (v, r) => some (JVal.jnum (v : Int), r)
    | none => none

/-- The literal token `true`. -/
def trueTok : PyStr := "true".data

/-- The literal token `false`. -/
def falseTok : PyStr := "false".data

/-- The literal token `null`. -/
def nullTok : PyStr := "null".data

/-- Parse a JSON scalar: `true`, `false`, `null` or a number. -/
def parseScalar (s : PyStr) : Option (JVal × PyStr) :=
  if trueTok.isPrefixOf s then some (JVal.jbool true, s.drop 4)
  else if falseTok.isPrefixOf s then some (JVal.jbool false, s.drop 5)
  else if nullTok.isPrefixOf s then some (JVal.jnull, s.drop 4)
  else parseNumberTok s

mutual

/-- Parse one JSON value (fuel-indexed recursion; `loads` supplies ample
fuel, so well-formed inputs of the modelled fragment never exhaust it). -/
def parseVal : Nat → PyStr → Option (JVal × PyStr)
  | 0, _ => none
  | fuel + 1, s =>
    match skipWs s with
    | [] => none
    | c :: rest =>
      if c == '{' then parseObjBody fuel rest
      else if c == '[' then parseArrBody fuel rest
      else if c == '"' then
        match parseStringBody rest with
        | some (cs, r) => some (JVal.jstr cs, r)
        | none => none
      else parseScalar (c :: rest)

/-- Parse an object body, right after the opening brace. -/
def parseObjBody : Nat → PyStr → Option (JVal × PyStr)
  | 0, _ => none
  | fuel + 1, s =>
    match skipWs s with
    | '}' :: r => some (JVal.jobj [], r)
    | s2 => parseMembers fuel s2 []

/-- Parse the members of a non-empty object; duplicate keys overwrite as in the
`dict` built by `json.loads`. -/
def parseMembers : Nat → PyStr → List (PyStr × JVal) → Option (JVal × PyStr)
  | 0, _, _ => none
  | fuel + 1, s, acc =>
    match skipWs s with
    | '"' :: rest =>
      match parseStringBody rest with
      | some (k, r1) =>
        match skipWs r1 with
        | ':' :: r2 =>
          match parseVal fuel r2 with
          | some (v, r3) =>
            match skipWs r3 with
            | ',' :: r4 => parseMembers fuel r4 (dictSet acc k v)
            | '}' :: r4 => some (JVal.jobj (dictSet acc k v), r4)
            | _ => none
          | none => none
        | _ => none
      | none => none
    | _ => none

/-- Parse an array body, right after the opening bracket. -/
def parseArrBody : Nat → PyStr → Option (JVal × PyStr)
  | 0, _ => none
  | fuel + 1, s =>
    match skipWs s with
    | ']' :: r => some (JVal.jarr [], r)
    | _ => parseElems fuel s []

/-- Parse the elements of a non-empty array. -/
def parseElems : Nat → PyStr → List JVal → Option (JVal × PyStr)
  | 0, _, _ => none
  | fuel + 1, s, acc =>
    match parseVal fuel s with
    | some (v, r) =>
      match skipWs r with
      | ',' :: r2 => parseElems fuel r2 (acc ++ [v])
      | ']' :: r2 => some (JVal.jarr (acc ++ [v]), r2)
      | _ => none
    | none => none

end

/-- `json.loads` on the modelled fragment: parse one value and require only
whitespace after it. -/
def loads (s : PyStr) : Option JVal :=
  match parseVal (4 * s.length + 8) s with
  | some (v, rest) => if (skipWs rest).isEmpty then some v else none
  | none => none

/-- Escape one character as in `json.dumps` (printable-ASCII fragment). -/
def escChar (c : Char) : PyStr :=
  if c == '"' then ['\\', '"']
  else if c == '\\' then ['\\', '\\']
  else if c == '\n' then ['\\', 'n']
  else if c == '\t' then ['\\', 't']
  else if c == '\r' then ['\\', 'r']
  else if c == Char.ofNat 8 then ['\\', 'b']
  else if c == Char.ofNat 12 then ['\\', 'f']
  else [c]

/-- Serialize a string as in `json.dumps`. -/
def dumpsStr (s : PyStr) : PyStr :=
  '"' :: (s.foldr (fun c acc => escChar c ++ acc) ['"'])

/-- Join serialized items with `json.dumps`'s default item separator `", "`. -/
def joinComma : List PyStr → PyStr
  | [] => []
  | [x] => x
  | x :: y :: rest => x ++ ',' :: ' ' :: joinComma (y :: rest)

mutual

/-- `json.dumps` with default separators (`", "` and `": "`) on the modelled
fragment. -/
def dumps : JVal → PyStr
  | JVal.jnull => nullTok
  | JVal.jbool true => trueTok
  | JVal.jbool false => falseTok
  | JVal.jnum n => (toString n).data
  | JVal.jstr s => dumpsStr s
  | JVal.jarr xs => '[' :: (joinComma (dumpsList xs) ++ [']'])
  | JVal.jobj fs => '{' :: (joinComma (dumpsFields fs) ++ ['}'])

/-- Serialize array elements in order. -/
def dumpsList : List JVal → List PyStr
  | [] => []
  | v :: vs => dumps v :: dumpsList vs

/-- Serialize object members in insertion order, with `json.dumps`'s default
key separator `": "`. -/
def dumpsFields : List (PyStr × JVal) → List PyStr
  | [] => []
  | (k, v) :: fs => (dumpsStr k ++ ':' :: ' ' :: dumps v) :: dumpsFields fs

end

/-! ## The action-input rewrite (`chat`, lines 49–72) -/

/-- The literal marker `'Action Input:'` scanned for in the completion text. -/
def ACTION_INPUT_MARKER : PyStr := "Action Input:".data

/-- The key `'input'` whose value the rewrite overwrites. -/
def INPUT_KEY : PyStr := "input".data

/-- Modelled from the spec: `QUERY_ENGINE_TOOL_ROUTER` lives in the
repository's `prompts` module, which is not among the provided sources.  Per
the spec it is "a fixed instruction suffix that nudges the model toward using
the retrieval tool" — a static text template whose exact contents none of the
claims depend on. -/
def QUERY_ENGINE_TOOL_ROUTER : PyStr :=
  "Use the query engine tool to answer the question.".data

/-- Modelled from the spec: `QUERY_ENGINE_PROMPT_FORMATTER.format(question=q)`
lives in the repository's `prompts` module, which is not among the provided
sources.  Per the spec it wraps "the raw question in a fixed instruction
frame"; the claims depend only on it being a fixed function of the question. -/
def QUERY_ENGINE_PROMPT_FORMATTER_format (question : PyStr) : PyStr :=
  "Answer thoroughly and quote your sources: ".data ++ question

/-- The content transformation of `chat` lines 52–66: if the completion
contains `'Action Input:'`, take the text after the marker (Python
`split('Action Input:')[1]`), strip it, and parse it with `json.loads`.  When
it parses to a `dict`, overwrite its `'input'` entry with the wrapped user
question and substitute the re-serialized record back with `str.replace`;
`some` is the rewritten content.  `none` covers the marker being absent, a
parse failure, and a parsed non-`dict` value (item assignment on it raises a
`TypeError` which the bare `except` also swallows): in all three cases the
content is left untouched. -/
def tryRewrite (message content : PyStr) : Option PyStr :=
  if hasSubstr content ACTION_INPUT_MARKER then
    match loads (pyStrip ((splitOnSub ACTION_INPUT_MARKER content).getD 1 [])) with
    | some (JVal.jobj fields) =>
      some (replaceAll content (pyStrip ((splitOnSub ACTION_INPUT_MARKER content).getD 1 []))
        (dumps (JVal.jobj (dictSet fields INPUT_KEY
          (JVal.jstr (QUERY_ENGINE_PROMPT_FORMATTER_format message))))))
    | _ => none
  else none

/-! ## Agent data model -/

/-- Message roles (`role="user"` and `MessageRole.ASSISTANT` in the source). -/
inductive Role where
  | user
  | assistant
  | system
deriving DecidableEq

/-- A `ChatMessage`. -/
structure ChatMessageV where
  role : Role
  content : PyStr
deriving DecidableEq

/-- The backend's `ChatResponse`, reduced to the two fields `chat` touches:
`raw['choices'][0]['message']['content']` and `message.content`. -/
structure ChatResponseV where
  rawContent : PyStr
  messageContent : PyStr
deriving DecidableEq

/-- `copy.deepcopy(chat_response)` followed by the conditional mutation of the
copy's two content fields (`chat` lines 46–69): when the rewrite applies, both
`raw['choices'][0]['message']['content']` and `message.content` of the copy
are set to the rewritten text; otherwise the copy keeps the original values. -/
def applyRewrite (message : PyStr) (resp : ChatResponseV) : ChatResponseV :=
  match tryRewrite message resp.rawContent with
  | some c => { rawContent := c, messageContent := c }
  | none => resp

/-- Python exceptions relevant to the dispatch step. -/
inductive PyErr where
  | keyError (key : PyStr)
  | toolError (msg : PyStr)
  | valueError (msg : PyStr)
deriving DecidableEq

/-- The one reasoning step produced by the framework's
`_extract_reasoning_step`: an `ActionReasoningStep` or a terminal
`ResponseReasoningStep` (the parser has no observation case, as the source
notes). -/
inductive ParsedStep where
  | actionStep (thought action : PyStr) (actionInput : List (PyStr × JVal))
  | responseStep (thought response : PyStr)

/-- A reasoning-trace step (`BaseReasoningStep` variants). -/
inductive StepV where
  | action (thought actName : PyStr) (actionInput : List (PyStr × JVal))
  | observation (obs : PyStr)
  | response (thought resp : PyStr)

/-- A registered tool: `tool.call(**action_input)`, already composed with the
`str(tool_output)` conversion; `Except.error` models the call raising. -/
structure ToolV where
  call : List (PyStr × JVal) → Except PyErr PyStr

/-- The agent instance state `chat` and `_process_actions` read:
`_react_chat_formatter.format`, `_llm.chat` (indexed by the call count, so that
a stateful backend — "any model behavior" — is covered),
`_extract_reasoning_step`'s parser, `_tools_dict`, `_get_response`, and
`_max_iterations`.  `getResponse` is modelled from the spec: `_get_response`
is framework code outside the provided sources, and per the spec the exhausted
budget "must still produce a best-effort final response (derived from whatever
reasoning trace exists) rather than fail", i.e. it is a total function of the
trace. -/
structure AgentCfg (Prompt : Type) where
  fmt : List ChatMessageV → List StepV → Prompt
  llm : Nat → Prompt → ChatResponseV
  extract : PyStr → Except PyErr ParsedStep
  tools : List (PyStr × ToolV)
  getResponse : List StepV → PyStr
  maxIterations : Nat

section Agent

variable {Prompt : Type}

/-- `_process_actions` (lines 86–111): extract one reasoning step from the
output's `message.content`; a terminal step ends the turn.  Otherwise the
action name is looked up in `self._tools_dict` — a plain subscript, so a
missing key raises `KeyError` — and the tool is called with the parsed input;
there is no `try`/`except`, so a raising tool propagates.  On success the
stringified output is appended as an `ObservationReasoningStep`. -/
def processActions (cfg : AgentCfg Prompt) (output : ChatResponseV) :
    Except PyErr (List StepV × Bool) :=
  match cfg.extract output.messageContent with
  | Except.error e => Except.error e
  | Except.ok (ParsedStep.responseStep th r) =>
    Except.ok ([StepV.response th r], true)
  | Except.ok (ParsedStep.actionStep th a inp) =>
    match dictLookup cfg.tools a with
    | none => Except.error (PyErr.keyError a)
    | some tool =>
      match tool.call inp with
      | Except.error e => Except.error e
      | Except.ok toolOut =>
        Except.ok ([StepV.action th a inp, StepV.observation toolOut], false)

/-- Side effects of one `chat` turn, recorded for the frame-effect and
resource claims: `_memory.set`, `_memory.put`, and one `_llm.chat` call. -/
inductive Event where
  | putE (role : Role)
  | setE
  | llmCallE
deriving DecidableEq

/-- The `for _ in range(self._max_iterations)` loop of `chat` (lines 35–79):
format the prompt from memory and the reasoning so far, call the backend,
deep-copy and rewrite the response, then `_process_actions`; extend the trace
and stop on a terminal step.  A propagated exception aborts the loop (and the
surrounding turn); the event log is returned on every path. -/
def runLoop (cfg : AgentCfg Prompt) (message : PyStr) (mem : List ChatMessageV) :
    Nat → Nat → List StepV → List Event → Except PyErr (List StepV) × List Event
  | 0, _, trace, evs => (Except.ok trace, evs)
  | fuel + 1, i, trace, evs =>
    match processActions cfg (applyRewrite message (cfg.llm i (cfg.fmt mem trace))) with
    | Except.error e => (Except.error e, evs ++ [Event.llmCallE])
    | Except.ok (steps, isDone) =>
      if isDone then (Except.ok (trace ++ steps), evs ++ [Event.llmCallE])
      else runLoop cfg message mem fuel (i + 1) (trace ++ steps) (evs ++ [Event.llmCallE])

/-- Events before the loop: the optional `_memory.set(chat_history)` and the
`_memory.put` of the augmented user message. -/
def initialEvents (chatHistory : Option (List ChatMessageV)) : List Event :=
  match chatHistory with
  | some _ => [Event.setE, Event.putE Role.user]
  | none => [Event.putE Role.user]

/-- `f"{message}\n{QUERY_ENGINE_TOOL_ROUTER}"` (line 29). -/
def augmentedUserMessage (message : PyStr) : PyStr :=
  message ++ '\n' :: QUERY_ENGINE_TOOL_ROUTER

/-- Chat memory after the optional wholesale `set` and the initial user
`put`. -/
def memAfterUserPut (message : PyStr) (chatHistory : Option (List ChatMessageV))
    (initMem : List ChatMessageV) : List ChatMessageV :=
  (match chatHistory with
   | some h2 => h2
   | none => initMem) ++ [{ role := Role.user, content := augmentedUserMessage message }]

/-- Everything observable about one `chat` turn: the returned response or the
propagated exception, the chat memory, the turn's reasoning trace (a local of
`chat`, discarded — hence empty here — when an exception propagates), and the
event log. -/
structure ChatResult where
  result : Except PyErr PyStr
  memory : List ChatMessageV
  trace : List StepV
  events : List Event

/-- `chat` (lines 19–84): optionally replace memory with `chat_history`, put
the augmented user message, run the loop, then put the final response as an
assistant message and return it.  An exception escaping the loop escapes
`chat` before the final put. -/
def chat (cfg : AgentCfg Prompt) (message : PyStr)
    (chatHistory : Option (List ChatMessageV)) (initMem : List ChatMessageV) : ChatResult :=
  match runLoop cfg message (memAfterUserPut message chatHistory initMem)
      cfg.maxIterations 0 [] (initialEvents chatHistory) with
  | (Except.error e, evs) =>
    { result := Except.error e
      memory := memAfterUserPut message chatHistory initMem
      trace := []
      events := evs }
  | (Except.ok tr, evs) =>
    { result := Except.ok (cfg.getResponse tr)
      memory := memAfterUserPut message chatHistory initMem
        ++ [{ role := Role.assistant, content := cfg.getResponse tr }]
      trace := tr
      events := evs ++ [Event.putE Role.assistant] }

end Agent

/-! ## Object-store view of the deep-copy-then-patch step (for the
no-mutation claim) -/

/-- A store of `ChatResponse` objects: Python references are indices below
`next`. -/
structure RespHeap where
  next : Nat
  mem : Nat → ChatResponseV

/-- Allocate a fresh object (as `copy.deepcopy` does) and return its
reference. -/
def heapAlloc (h : RespHeap) (v : ChatResponseV) : Nat × RespHeap :=
  (h.next, { next := h.next + 1, mem := fun r => if r = h.next then v else h.mem r })

/-- In-place update of `raw['choices'][0]['message']['content']` of the object
behind `r`. -/
def heapWriteRaw (h : RespHeap) (r : Nat) (c : PyStr) : RespHeap :=
  { h with mem := fun x => if x = r then { h.mem r with rawContent := c } else h.mem x }

/-- In-place update of `message.content` of the object behind `r`. -/
def heapWriteMsg (h : RespHeap) (r : Nat) (c : PyStr) : RespHeap :=
  { h with mem := fun x => if x = r then { h.mem r with messageContent := c } else h.mem x }

/-- Lines 45–69 of `chat` with the object store explicit:
`chat_response_copy = copy.deepcopy(chat_response)` allocates a fresh object,
the rewrite reads the copy's raw content, and the two assignments of the
rewritten text go to the copy's reference only. -/
def rewriteOnHeap (message : PyStr) (h : RespHeap) (respRef : Nat) : Nat × RespHeap :=
  let copyRef := (heapAlloc h (h.mem respRef)).1
  let h1 := (heapAlloc h (h.mem respRef)).2
  match tryRewrite message ((h1.mem copyRef).rawContent) with
  | some newContent =>
    (copyRef, heapWriteMsg (heapWriteRaw h1 copyRef newContent) copyRef newContent)
  | none => (copyRef, h1)

def wQ : PyStr := "Q".data

def wX : PyStr := "X".data

def wPre : PyStr := "Action: query_tool\n".data

def wTail : PyStr := " \x7b\"input\": \"X\"\x7d".data

def wPart : PyStr := "\x7b\"input\": \"X\"\x7d".data

def wFields : List (PyStr × JVal) := [(INPUT_KEY, JVal.jstr wX)]

def wKeyB : PyStr := "k".data

def wTailB : PyStr := " \x7b\"k\": 1\x7d".data

def wPartB : PyStr := "\x7b\"k\": 1\x7d".data

def wFieldsB : List (PyStr × JVal) := [(wKeyB, JVal.jnum 1)]

def wBadContent : PyStr := "Action Input: notjson".data

/-- The backend response used in the C5 witness. -/
def wBadResp : ChatResponseV := { rawContent := wBadContent, messageContent := wBadContent }

/-! ## Trace and event-log predicates -/

/-- Number of terminal (final-answer) steps in a trace. -/
def respCount (tr : List StepV) : Nat :=
  tr.countP fun st => match st with | StepV.response _ _ => true | _ => false

/-- Number of Chat Memory `put` operations in an event log. -/
def putCount (evs : List Event) : Nat :=
  evs.countP fun ev => match ev with | Event.putE _ => true | _ => false

/-- Number of language-model backend calls in an event log. -/
def llmCount (evs : List Event) : Nat :=
  evs.countP fun ev => match ev with | Event.llmCallE => true | _ => false

/-- Whether a turn returned normally (no propagated exception). -/
def resultOk {ε α : Type} : Except ε α → Bool
  | Except.ok _ => true
  | Except.error _ => false

/-- Every observation step is immediately preceded by an action step; hence an
observation is never first and two observations are never adjacent. -/
def ObsPreceded (tr : List StepV) : Prop :=
  ∀ n obs, tr[n]? = some (StepV.observation obs) →
    ∃ p th a inp, n = p + 1 ∧ tr[p]? = some (StepV.action th a inp)

/-- Traces made of consecutive action/observation pairs (the loop's shape
before a terminal step). -/
inductive Paired : List StepV → Prop where
  | nil : Paired []
  | cons (th a : PyStr) (inp : List (PyStr × JVal)) (o : PyStr) (rest : List StepV) :
      Paired rest → Paired (StepV.action th a inp :: StepV.observation o :: rest)

def wHeap : RespHeap := { next := 1, mem := fun _ => wBadResp }

/-! ## Concrete agents for the counterexamples and witnesses -/

def wHi : PyStr := "hi".data

def wThought : PyStr := "th".data

def wMissingTool : PyStr := "missing_tool".data

def wToolName : PyStr := "query_tool".data

def wBoom : PyStr := "boom".data

def wAns : PyStr := "Paris".data

/-- A backend response with no action-input marker. -/
def wResp0 : ChatResponseV := { rawContent := wHi, messageContent := wHi }

/-- A tool whose call raises. -/
def raisingTool : ToolV := { call := fun _ => Except.error (PyErr.toolError wBoom) }

/-- A tool whose call returns normally. -/
def okTool : ToolV := { call := fun _ => Except.ok wHi }

/-- Agent whose model always requests a tool that is not registered. -/
def cfgUnknownTool : AgentCfg Unit :=
  { fmt := fun _ _ => ()
    llm := fun _ _ => wResp0
    extract := fun _ => Except.ok (ParsedStep.actionStep wThought wMissingTool [])
    tools := []
    getResponse := fun _ => wHi
    maxIterations := 3 }

/-- Agent whose registered tool raises on every call. -/
def cfgRaisingTool : AgentCfg Unit :=
  { fmt := fun _ _ => ()
    llm := fun _ _ => wResp0
    extract := fun _ => Except.ok (ParsedStep.actionStep wThought wToolName [])
    tools := [(wToolName, raisingTool)]
    getResponse := fun _ => wHi
    maxIterations := 3 }

/-- Agent whose model keeps requesting a working tool and never answers. -/
def cfgLooping : AgentCfg Unit :=
  { fmt := fun _ _ => ()
    llm := fun _ _ => wResp0
    extract := fun _ => Except.ok (ParsedStep.actionStep wThought wToolName [])
    tools := [(wToolName, okTool)]
    getResponse := fun _ => wHi
    maxIterations := 2 }

/-- Agent whose model answers terminally on the first iteration. -/
def cfgDone : AgentCfg Unit :=
  { fmt := fun _ _ => ()
    llm := fun _ _ => wResp0
    extract := fun _ => Except.ok (ParsedStep.responseStep wThought wAns)
    tools := []
    getResponse := fun _ => wAns
    maxIterations := 3 }

/-! ## Helper lemmas about the string scans -/

theorem isPrefixOf_append_self (p t : PyStr) : p.isPrefixOf (p ++ t) = true := by
  induction p with
  | nil => simp [List.isPrefixOf]
  | cons c cs ih => simp [List.isPrefixOf, ih]

theorem eq_nil_of_isPrefixOf_nil (p : PyStr) (h : p.isPrefixOf ([] : PyStr) = true) :
    p = [] := by
  cases p with
  | nil => rfl
  | cons c cs => simp [List.isPrefixOf] at h

/-- If `p` occurs at exactly one index of `s`, every occurrence index equals
any given occurrence index. -/
theorem occ_unique (s p : PyStr) (j : Nat) (hp : p ≠ [])
    (hj : p.isPrefixOf (s.drop j) = true)
    (hc : occIdxCount s p = 1) :
    ∀ i, p.isPrefixOf (s.drop i) = true → i = j := by
  have hle : ∀ k, p.isPrefixOf (s.drop k) = true → k ≤ s.length := by
    intro k hk
    by_contra hgt
    push_neg at hgt
    rw [List.drop_eq_nil_of_le (le_of_lt hgt)] at hk
    exact hp (eq_nil_of_isPrefixOf_nil p hk)
  have hfilter :
      ((List.range (s.length + 1)).filter fun k => p.isPrefixOf (s.drop k)).length = 1 := by
    rw [← List.countP_eq_length_filter]
    exact hc
  obtain ⟨x, hx⟩ := List.length_eq_one.mp hfilter
  have honly : ∀ k, p.isPrefixOf (s.drop k) = true → k = x := by
    intro k hk
    have hmem : k ∈ (List.range (s.length + 1)).filter fun k2 => p.isPrefixOf (s.drop k2) := by
      rw [List.mem_filter]
      exact ⟨List.mem_range.mpr (Nat.lt_succ_of_le (hle k hk)), hk⟩
    rw [hx] at hmem
    simpa using hmem
  intro i hi
  rw [honly i hi, honly j hj]

theorem splitFuel_no_occ (sep : PyStr) :
    ∀ (b : PyStr) (fuel : Nat), b.length ≤ fuel →
      (∀ i, sep.isPrefixOf (b.drop i) = false) →
      splitFuel sep fuel b = [b] := by
  intro b
  induction b with
  | nil => intro fuel _ _; cases fuel <;> rfl
  | cons c rest ih =>
    intro fuel hlen hno
    cases fuel with
    | zero => simp at hlen
    | succ f =>
      have h0 : sep.isPrefixOf (c :: rest) = false := by simpa using hno 0
      have hrec : splitFuel sep f rest = [rest] := by
        refine ih f (by simp at hlen; omega) ?_
        intro i
        simpa [List.drop_succ_cons] using hno (i + 1)
      simp [splitFuel, h0, hrec]

theorem splitFuel_unique (sep : PyStr) (hp : sep ≠ []) :
    ∀ (a b : PyStr) (fuel : Nat),
      (a ++ sep ++ b).length ≤ fuel →
      (∀ i, sep.isPrefixOf ((a ++ sep ++ b).drop i) = true → i = a.length) →
      splitFuel sep fuel (a ++ sep ++ b) = [a, b] := by
  intro a
  induction a with
  | nil =>
    intro b fuel hlen huniq
    simp only [List.nil_append, List.length_nil] at hlen huniq ⊢
    cases sep with
    | nil => exact absurd rfl hp
    | cons d sep2 =>
      cases fuel with
      | zero => simp at hlen
      | succ f =>
        have hpre2 : (d :: sep2).isPrefixOf (d :: (sep2 ++ b)) = true := by
          exact isPrefixOf_append_self (d :: sep2) b
        have hnob : ∀ i, (d :: sep2).isPrefixOf (b.drop i) = false := by
          intro i
          cases hocc : (d :: sep2).isPrefixOf (b.drop i) with
          | false => rfl
          | true =>
            have hdrop : ((d :: sep2) ++ b).drop ((d :: sep2).length + i) = b.drop i :=
              List.drop_append i
            have := huniq ((d :: sep2).length + i) (by rw [hdrop]; exact hocc)
            simp at this
        have hrest : splitFuel (d :: sep2) f b = [b] := by
          refine splitFuel_no_occ _ b f ?_ hnob
          simp [List.length_append] at hlen
          omega
        show splitFuel (d :: sep2) (f + 1) ((d :: sep2) ++ b) = [[], b]
        simp only [List.cons_append, splitFuel, List.append_eq, List.append_assoc]
        rw [hpre2]
        simp only [List.isEmpty_cons, Bool.not_false, Bool.and_self, if_true,
          List.length_cons, Nat.add_sub_cancel, List.drop_left, hrest]
  | cons c a2 ih =>
    intro b fuel hlen huniq
    cases fuel with
    | zero => simp at hlen
    | succ f =>
      have hnoc : sep.isPrefixOf (c :: (a2 ++ sep ++ b)) = false := by
        cases hocc : sep.isPrefixOf (c :: (a2 ++ sep ++ b)) with
        | false => rfl
        | true =>
          have := huniq 0 (by simpa [List.cons_append] using hocc)
          simp at this
      have huniq2 : ∀ i, sep.isPrefixOf ((a2 ++ sep ++ b).drop i) = true → i = a2.length := by
        intro i hocc
        have := huniq (i + 1) (by simpa [List.cons_append, List.drop_succ_cons] using hocc)
        simpa using this
      have hrec : splitFuel sep f (a2 ++ sep ++ b) = [a2, b] := by
        refine ih b f ?_ huniq2
        simp [List.length_append] at hlen ⊢
        omega
      show splitFuel sep (f + 1) ((c :: a2) ++ sep ++ b) = [c :: a2, b]
      simp only [List.cons_append, splitFuel, List.append_eq, List.append_assoc]
      simp only [List.append_assoc] at hnoc hrec
      rw [hnoc]
      simp only [Bool.false_and, Bool.false_eq_true, if_false]
      rw [hrec]

theorem replaceFuel_no_occ (old new : PyStr) :
    ∀ (b : PyStr) (fuel : Nat), b.length ≤ fuel →
      (∀ i, old.isPrefixOf (b.drop i) = false) →
      replaceFuel old new fuel b = b := by
  intro b
  induction b with
  | nil => intro fuel _ _; cases fuel <;> rfl
  | cons c rest ih =>
    intro fuel hlen hno
    cases fuel with
    | zero => simp at hlen
    | succ f =>
      have h0 : old.isPrefixOf (c :: rest) = false := by simpa using hno 0
      have hrec : replaceFuel old new f rest = rest := by
        refine ih f (by simp at hlen; omega) ?_
        intro i
        simpa [List.drop_succ_cons] using hno (i + 1)
      simp [replaceFuel, h0, hrec]

theorem replaceFuel_unique (old new : PyStr) (hp : old ≠ []) :
    ∀ (a b : PyStr) (fuel : Nat),
      (a ++ old ++ b).length ≤ fuel →
      (∀ i, old.isPrefixOf ((a ++ old ++ b).drop i) = true → i = a.length) →
      replaceFuel old new fuel (a ++ old ++ b) = a ++ new ++ b := by
  intro a
  induction a with
  | nil =>
    intro b fuel hlen huniq
    simp only [List.nil_append, List.length_nil] at hlen huniq ⊢
    cases old with
    | nil => exact absurd rfl hp
    | cons d old2 =>
      cases fuel with
      | zero => simp at hlen
      | succ f =>
        have hpre2 : (d :: old2).isPrefixOf (d :: (old2 ++ b)) = true := by
          exact isPrefixOf_append_self (d :: old2) b
        have hnob : ∀ i, (d :: old2).isPrefixOf (b.drop i) = false := by
          intro i
          cases hocc : (d :: old2).isPrefixOf (b.drop i) with
          | false => rfl
          | true =>
            have hdrop : ((d :: old2) ++ b).drop ((d :: old2).length + i) = b.drop i :=
              List.drop_append i
            have := huniq ((d :: old2).length + i) (by rw [hdrop]; exact hocc)
            simp at this
        have hrest : replaceFuel (d :: old2) new f b = b := by
          refine replaceFuel_no_occ _ new b f ?_ hnob
          simp [List.length_append] at hlen
          omega
        show replaceFuel (d :: old2) new (f + 1) ((d :: old2) ++ b) = new ++ b
        simp only [List.cons_append, replaceFuel, List.append_eq, List.append_assoc]
        rw [hpre2]
        simp only [List.isEmpty_cons, Bool.not_false, Bool.and_self, if_true,
          List.length_cons, Nat.add_sub_cancel, List.drop_left, hrest]
  | cons c a2 ih =>
    intro b fuel hlen huniq
    cases fuel with
    | zero => simp at hlen
    | succ f =>
      have hnoc : old.isPrefixOf (c :: (a2 ++ old ++ b)) = false := by
        cases hocc : old.isPrefixOf (c :: (a2 ++ old ++ b)) with
        | false => rfl
        | true =>
          have := huniq 0 (by simpa using hocc)
          simp at this
      have huniq2 : ∀ i, old.isPrefixOf ((a2 ++ old ++ b).drop i) = true → i = a2.length := by
        intro i hocc
        have := huniq (i + 1) (by simpa [List.drop_succ_cons] using hocc)
        simpa using this
      have hrec : replaceFuel old new f (a2 ++ old ++ b) = a2 ++ new ++ b := by
        refine ih b f ?_ huniq2
        simp [List.length_append] at hlen ⊢
        omega
      show replaceFuel old new (f + 1) ((c :: a2) ++ old ++ b) = (c :: a2) ++ new ++ b
      simp only [List.cons_append, replaceFuel, List.append_eq, List.append_assoc]
      simp only [List.append_assoc] at hnoc hrec
      rw [hnoc]
      simp only [Bool.false_and, Bool.false_eq_true, if_false]
      rw [hrec]

/-- `str.split` on a string with exactly one occurrence of the (non-empty)
separator yields the parts before and after it. -/
theorem splitOnSub_unique (sep a b : PyStr) (hp : sep ≠ [])
    (huniq : ∀ i, sep.isPrefixOf ((a ++ sep ++ b).drop i) = true → i = a.length) :
    splitOnSub sep (a ++ sep ++ b) = [a, b] :=
  splitFuel_unique sep hp a b (a ++ sep ++ b).length le_rfl huniq

/-- `str.replace` on a string with exactly one occurrence of the (non-empty)
pattern substitutes at exactly that occurrence. -/
theorem replaceAll_unique (old new a b : PyStr) (hp : old ≠ [])
    (huniq : ∀ i, old.isPrefixOf ((a ++ old ++ b).drop i) = true → i = a.length) :
    replaceAll (a ++ old ++ b) old new = a ++ new ++ b :=
  replaceFuel_unique old new hp a b (a ++ old ++ b).length le_rfl huniq

theorem hasSubstr_of_occ (s p : PyStr) (i : Nat) (hi : i ≤ s.length)
    (h : p.isPrefixOf (s.drop i) = true) : hasSubstr s p = true := by
  unfold hasSubstr
  rw [List.any_eq_true]
  exact ⟨i, List.mem_range.mpr (Nat.lt_succ_of_le hi), h⟩

/-- Every string splits as leading whitespace, its `strip`, and trailing
whitespace. -/
theorem pyStrip_decomp (s : PyStr) :
    ∃ w1 w2 : PyStr, (∀ c ∈ w1, isPySpace c = true) ∧ (∀ c ∈ w2, isPySpace c = true) ∧
      s = w1 ++ pyStrip s ++ w2 := by
  refine ⟨s.takeWhile isPySpace,
    ((s.dropWhile isPySpace).reverse.takeWhile isPySpace).reverse, ?_, ?_, ?_⟩
  · intro c hc
    exact List.mem_takeWhile_imp hc
  · intro c hc
    rw [List.mem_reverse] at hc
    exact List.mem_takeWhile_imp hc
  · unfold pyStrip
    conv_lhs => rw [← List.takeWhile_append_dropWhile isPySpace s]
    rw [List.append_assoc]
    congr 1
    conv_lhs => rw [← List.reverse_reverse (s.dropWhile isPySpace)]
    conv_lhs =>
      rw [← List.takeWhile_append_dropWhile isPySpace (s.dropWhile isPySpace).reverse]
    rw [List.reverse_append]

theorem dictLookup_dictSet_self {α : Type} (l : List (PyStr × α)) (k : PyStr) (v : α) :
    dictLookup (dictSet l k v) k = some v := by
  induction l with
  | nil => simp [dictSet, dictLookup]
  | cons kv rest ih =>
    obtain ⟨k2, v2⟩ := kv
    by_cases h : k2 = k
    · subst h
      simp [dictSet, dictLookup]
    · simp [dictSet, dictLookup, h, ih]

theorem dictLookup_dictSet_other {α : Type} (l : List (PyStr × α)) (k k3 : PyStr) (v : α)
    (h : k3 ≠ k) : dictLookup (dictSet l k v) k3 = dictLookup l k3 := by
  induction l with
  | nil => simp [dictSet, dictLookup, Ne.symm h]
  | cons kv rest ih =>
    obtain ⟨k2, v2⟩ := kv
    by_cases h2 : k2 = k
    · subst h2
      simp [dictSet, dictLookup, Ne.symm h]
    · simp [dictSet, dictLookup, h2, ih]

/-- Characterization of a successful rewrite: when the completion is the text
before the marker, the marker (occurring nowhere else), and a tail whose
stripped form is a JSON record occurring nowhere else in the completion, the
rewrite yields the completion with the record text replaced, in place, by the
serialization of the record with its `input` entry overwritten by the wrapped
user question. -/
theorem tryRewrite_spec (message pre s part : PyStr) (fields : List (PyStr × JVal))
    (hpart : pyStrip s = part)
    (hload : loads part = some (JVal.jobj fields))
    (hmark : occIdxCount (pre ++ ACTION_INPUT_MARKER ++ s) ACTION_INPUT_MARKER = 1)
    (hrec : occIdxCount (pre ++ ACTION_INPUT_MARKER ++ s) part = 1) :
    ∃ w1 w2 : PyStr,
      (∀ c ∈ w1, isPySpace c = true) ∧ (∀ c ∈ w2, isPySpace c = true) ∧
      s = w1 ++ part ++ w2 ∧
      tryRewrite message (pre ++ ACTION_INPUT_MARKER ++ s)
        = some (pre ++ ACTION_INPUT_MARKER ++ w1
            ++ dumps (JVal.jobj (dictSet fields INPUT_KEY
                (JVal.jstr (QUERY_ENGINE_PROMPT_FORMATTER_format message)))) ++ w2) := by
  obtain ⟨w1, w2, hw1, hw2, hs⟩ := pyStrip_decomp s
  rw [hpart] at hs
  have hmne : ACTION_INPUT_MARKER ≠ [] := by decide
  have hMocc : ACTION_INPUT_MARKER.isPrefixOf
      ((pre ++ ACTION_INPUT_MARKER ++ s).drop pre.length) = true := by
    rw [List.append_assoc, List.drop_left]
    exact isPrefixOf_append_self ACTION_INPUT_MARKER s
  have hMuniq := occ_unique (pre ++ ACTION_INPUT_MARKER ++ s) ACTION_INPUT_MARKER
    pre.length hmne hMocc hmark
  have hsplit : splitOnSub ACTION_INPUT_MARKER (pre ++ ACTION_INPUT_MARKER ++ s) = [pre, s] :=
    splitOnSub_unique ACTION_INPUT_MARKER pre s hmne hMuniq
  have hpne : part ≠ [] := by
    intro h
    rw [h] at hload
    exact Option.noConfusion hload
  have hcontent : pre ++ ACTION_INPUT_MARKER ++ s
      = (pre ++ ACTION_INPUT_MARKER ++ w1) ++ part ++ w2 := by
    rw [hs]
    simp [List.append_assoc]
  have hPocc : part.isPrefixOf
      ((pre ++ ACTION_INPUT_MARKER ++ s).drop (pre ++ ACTION_INPUT_MARKER ++ w1).length)
      = true := by
    rw [hcontent, List.append_assoc (pre ++ ACTION_INPUT_MARKER ++ w1) part w2,
      List.drop_left]
    exact isPrefixOf_append_self part w2
  have hPuniq := occ_unique (pre ++ ACTION_INPUT_MARKER ++ s) part
    (pre ++ ACTION_INPUT_MARKER ++ w1).length hpne hPocc hrec
  have hreplace : replaceAll (pre ++ ACTION_INPUT_MARKER ++ s) part
      (dumps (JVal.jobj (dictSet fields INPUT_KEY
        (JVal.jstr (QUERY_ENGINE_PROMPT_FORMATTER_format message)))))
      = (pre ++ ACTION_INPUT_MARKER ++ w1)
          ++ dumps (JVal.jobj (dictSet fields INPUT_KEY
            (JVal.jstr (QUERY_ENGINE_PROMPT_FORMATTER_format message)))) ++ w2 := by
    rw [hcontent]
    exact replaceAll_unique part _ (pre ++ ACTION_INPUT_MARKER ++ w1) w2 hpne
      (by rw [← hcontent]; exact hPuniq)
  have hH : hasSubstr (pre ++ ACTION_INPUT_MARKER ++ s) ACTION_INPUT_MARKER = true := by
    refine hasSubstr_of_occ _ _ pre.length ?_ hMocc
    simp [List.length_append]
  refine ⟨w1, w2, hw1, hw2, hs, ?_⟩
  unfold tryRewrite
  rw [hH]
  rw [hsplit]
  simp only [List.getD_cons_succ, List.getD_cons_zero]
  rw [hpart, hload]
  exact congrArg some hreplace

/-- C4 (confirmed): a completion of the form `pre ++ 'Action Input:' ++ s`,
where the marker occurs only there, the stripped tail `part` parses as a JSON
record, and `part` occurs nowhere else in the completion, is rewritten to a
completion whose action-input record has its `input` field equal to the fixed
template applied to the user question, with all other fields preserved
unchanged, and the re-serialized record substituted at the exact original
span (between the original surrounding whitespace). -/
theorem c4_rewrite_correct (message pre s part : PyStr) (fields : List (PyStr × JVal))
    (hpart : pyStrip s = part)
    (hload : loads part = some (JVal.jobj fields))
    (hmark : occIdxCount (pre ++ ACTION_INPUT_MARKER ++ s) ACTION_INPUT_MARKER = 1)
    (hrec : occIdxCount (pre ++ ACTION_INPUT_MARKER ++ s) part = 1) :
    ∃ w1 w2 : PyStr,
      (∀ c ∈ w1, isPySpace c = true) ∧ (∀ c ∈ w2, isPySpace c = true) ∧
      s = w1 ++ part ++ w2 ∧
      tryRewrite message (pre ++ ACTION_INPUT_MARKER ++ s)
        = some (pre ++ ACTION_INPUT_MARKER ++ w1
            ++ dumps (JVal.jobj (dictSet fields INPUT_KEY
                (JVal.jstr (QUERY_ENGINE_PROMPT_FORMATTER_format message)))) ++ w2) ∧
      dictLookup (dictSet fields INPUT_KEY
          (JVal.jstr (QUERY_ENGINE_PROMPT_FORMATTER_format message))) INPUT_KEY
        = some (JVal.jstr (QUERY_ENGINE_PROMPT_FORMATTER_format message)) ∧
      ∀ k : PyStr, k ≠ INPUT_KEY →
        dictLookup (dictSet fields INPUT_KEY
          (JVal.jstr (QUERY_ENGINE_PROMPT_FORMATTER_format message))) k
        = dictLookup fields k := by
  obtain ⟨w1, w2, hw1, hw2, hs, heq⟩ :=
    tryRewrite_spec message pre s part fields hpart hload hmark hrec
  exact ⟨w1, w2, hw1, hw2, hs, heq, dictLookup_dictSet_self fields INPUT_KEY _,
    fun k hk => dictLookup_dictSet_other fields INPUT_KEY k _ hk⟩

/-- Witness for C4 at a concrete completion. -/
theorem c4_witness :
    pyStrip wTail = wPart ∧
    loads wPart = some (JVal.jobj wFields) ∧
    occIdxCount (wPre ++ ACTION_INPUT_MARKER ++ wTail) ACTION_INPUT_MARKER = 1 ∧
    occIdxCount (wPre ++ ACTION_INPUT_MARKER ++ wTail) wPart = 1 ∧
    (∃ w1 w2 : PyStr,
      (∀ c ∈ w1, isPySpace c = true) ∧ (∀ c ∈ w2, isPySpace c = true) ∧
      wTail = w1 ++ wPart ++ w2 ∧
      tryRewrite wQ (wPre ++ ACTION_INPUT_MARKER ++ wTail)
        = some (wPre ++ ACTION_INPUT_MARKER ++ w1
            ++ dumps (JVal.jobj (dictSet wFields INPUT_KEY
                (JVal.jstr (QUERY_ENGINE_PROMPT_FORMATTER_format wQ)))) ++ w2) ∧
      dictLookup (dictSet wFields INPUT_KEY
          (JVal.jstr (QUERY_ENGINE_PROMPT_FORMATTER_format wQ))) INPUT_KEY
        = some (JVal.jstr (QUERY_ENGINE_PROMPT_FORMATTER_format wQ)) ∧
      ∀ k : PyStr, k ≠ INPUT_KEY →
        dictLookup (dictSet wFields INPUT_KEY
          (JVal.jstr (QUERY_ENGINE_PROMPT_FORMATTER_format wQ))) k
        = dictLookup wFields k) :=
  ⟨rfl, rfl, rfl, rfl, c4_rewrite_correct wQ wPre wTail wPart wFields rfl rfl rfl rfl⟩

/-- C10 (confirmed): when the stripped text after the marker parses as a JSON
object with no `input` key (and marker and record text each occur once), the
rewrite does not fail — it returns a rewritten completion — and the rewritten
record contains an `input` key holding the template applied to the user
question. -/
theorem c10_missing_input_added (message pre s part : PyStr) (fields : List (PyStr × JVal))
    (hpart : pyStrip s = part)
    (hload : loads part = some (JVal.jobj fields))
    (_hnone : dictLookup fields INPUT_KEY = none)
    (hmark : occIdxCount (pre ++ ACTION_INPUT_MARKER ++ s) ACTION_INPUT_MARKER = 1)
    (hrec : occIdxCount (pre ++ ACTION_INPUT_MARKER ++ s) part = 1) :
    ∃ w1 w2 : PyStr,
      s = w1 ++ part ++ w2 ∧
      tryRewrite message (pre ++ ACTION_INPUT_MARKER ++ s)
        = some (pre ++ ACTION_INPUT_MARKER ++ w1
            ++ dumps (JVal.jobj (dictSet fields INPUT_KEY
                (JVal.jstr (QUERY_ENGINE_PROMPT_FORMATTER_format message)))) ++ w2) ∧
      dictLookup (dictSet fields INPUT_KEY
          (JVal.jstr (QUERY_ENGINE_PROMPT_FORMATTER_format message))) INPUT_KEY
        = some (JVal.jstr (QUERY_ENGINE_PROMPT_FORMATTER_format message)) := by
  obtain ⟨w1, w2, _, _, hs, heq⟩ :=
    tryRewrite_spec message pre s part fields hpart hload hmark hrec
  exact ⟨w1, w2, hs, heq, dictLookup_dictSet_self fields INPUT_KEY _⟩

/-- Witness for C10 at a concrete completion whose record lacks `input`. -/
theorem c10_witness :
    pyStrip wTailB = wPartB ∧
    loads wPartB = some (JVal.jobj wFieldsB) ∧
    dictLookup wFieldsB INPUT_KEY = none ∧
    occIdxCount (wPre ++ ACTION_INPUT_MARKER ++ wTailB) ACTION_INPUT_MARKER = 1 ∧
    occIdxCount (wPre ++ ACTION_INPUT_MARKER ++ wTailB) wPartB = 1 ∧
    (∃ w1 w2 : PyStr,
      wTailB = w1 ++ wPartB ++ w2 ∧
      tryRewrite wQ (wPre ++ ACTION_INPUT_MARKER ++ wTailB)
        = some (wPre ++ ACTION_INPUT_MARKER ++ w1
            ++ dumps (JVal.jobj (dictSet wFieldsB INPUT_KEY
                (JVal.jstr (QUERY_ENGINE_PROMPT_FORMATTER_format wQ)))) ++ w2) ∧
      dictLookup (dictSet wFieldsB INPUT_KEY
          (JVal.jstr (QUERY_ENGINE_PROMPT_FORMATTER_format wQ))) INPUT_KEY
        = some (JVal.jstr (QUERY_ENGINE_PROMPT_FORMATTER_format wQ))) :=
  ⟨rfl, rfl, rfl, rfl, rfl,
    c10_missing_input_added wQ wPre wTailB wPartB wFieldsB rfl rfl rfl rfl rfl⟩

/-- C5 (confirmed): when the completion contains the marker but the extracted,
stripped text does not parse as a JSON record (including parsing as a
non-record value, on which the item assignment raises a `TypeError` that the
bare `except` equally swallows), the rewrite is abandoned and the deep-copied
completion passed to downstream parsing is value-equal to the backend's
response; nothing is raised (the embedding is total: every failure mode of the
`try` block is a `loads` outcome in the fall-through branch). -/
theorem c5_malformed_falls_back (message : PyStr) (resp : ChatResponseV)
    (hmarker : hasSubstr resp.rawContent ACTION_INPUT_MARKER = true)
    (hbad : ∀ fields, loads (pyStrip
        ((splitOnSub ACTION_INPUT_MARKER resp.rawContent).getD 1 []))
      ≠ some (JVal.jobj fields)) :
    tryRewrite message resp.rawContent = none ∧ applyRewrite message resp = resp := by
  have h1 : tryRewrite message resp.rawContent = none := by
    unfold tryRewrite
    rw [hmarker]
    cases hl : loads (pyStrip ((splitOnSub ACTION_INPUT_MARKER resp.rawContent).getD 1 [])) with
    | none => rfl
    | some v =>
      cases v with
      | jobj fields => exact absurd hl (hbad fields)
      | jnull => rfl
      | jbool b => rfl
      | jnum n => rfl
      | jstr s2 => rfl
      | jarr xs => rfl
  refine ⟨h1, ?_⟩
  unfold applyRewrite
  rw [h1]

/-- Witness for C5 at a concrete malformed completion. -/
theorem c5_witness :
    hasSubstr wBadResp.rawContent ACTION_INPUT_MARKER = true ∧
    (∀ fields, loads (pyStrip
        ((splitOnSub ACTION_INPUT_MARKER wBadResp.rawContent).getD 1 []))
      ≠ some (JVal.jobj fields)) ∧
    tryRewrite wQ wBadResp.rawContent = none ∧ applyRewrite wQ wBadResp = wBadResp := by
  have hbad : ∀ fields, loads (pyStrip
      ((splitOnSub ACTION_INPUT_MARKER wBadResp.rawContent).getD 1 []))
      ≠ some (JVal.jobj fields) := by
    intro fields h
    have h2 : (none : Option JVal) = some (JVal.jobj fields) := h
    exact Option.noConfusion h2
  exact ⟨rfl, hbad, c5_malformed_falls_back wQ wBadResp rfl hbad⟩

theorem Paired.append_pair (tr : List StepV) (h : Paired tr)
    (th a : PyStr) (inp : List (PyStr × JVal)) (o : PyStr) :
    Paired (tr ++ [StepV.action th a inp, StepV.observation o]) := by
  induction h with
  | nil => exact Paired.cons _ _ _ _ _ Paired.nil
  | cons th2 a2 inp2 o2 rest _ ih =>
    simpa [List.cons_append] using Paired.cons th2 a2 inp2 o2 _ ih

theorem Paired.respCount_zero (tr : List StepV) (h : Paired tr) : respCount tr = 0 := by
  induction h with
  | nil => rfl
  | cons th a inp o rest _ ih => simpa [respCount, List.countP_cons] using ih

theorem Paired.obsPreceded (tr : List StepV) (h : Paired tr) : ObsPreceded tr := by
  induction h with
  | nil => intro n obs hn; simp at hn
  | cons th a inp o rest _ ih =>
    intro n obs hn
    match n with
    | 0 => simp at hn
    | 1 => exact ⟨0, th, a, inp, rfl, by simp⟩
    | k + 2 =>
      obtain ⟨p, th2, a2, inp2, hp, hget⟩ := ih k obs (by simpa using hn)
      exact ⟨p + 2, th2, a2, inp2, by omega, by simpa using hget⟩

theorem ObsPreceded.concat_resp (tr : List StepV) (h : ObsPreceded tr)
    (th r : PyStr) : ObsPreceded (tr ++ [StepV.response th r]) := by
  intro n obs hn
  rcases Nat.lt_trichotomy n tr.length with hlt | heq | hgt
  · rw [List.getElem?_append_left hlt] at hn
    obtain ⟨p, th2, a2, inp2, hp, hget⟩ := h n obs hn
    have hplt : p < tr.length := by omega
    exact ⟨p, th2, a2, inp2, hp, by rw [List.getElem?_append_left hplt]; exact hget⟩
  · rw [List.getElem?_append_right (le_of_eq heq.symm), heq] at hn
    simp at hn
  · rw [List.getElem?_append_right (by omega)] at hn
    have h1 : n - tr.length ≥ 1 := by omega
    match hm : n - tr.length, h1 with
    | k + 1, _ => rw [hm] at hn; simp at hn

/-! ## Loop lemmas -/

section LoopLemmas

variable {Prompt : Type}

/-- `_process_actions` has exactly three outcomes: a propagated exception, a
single terminal step, or an action/observation pair. -/
theorem processActions_shape (cfg : AgentCfg Prompt) (out : ChatResponseV) :
    (∃ e, processActions cfg out = Except.error e)
    ∨ (∃ th r, processActions cfg out = Except.ok ([StepV.response th r], true))
    ∨ (∃ th a inp o, processActions cfg out
        = Except.ok ([StepV.action th a inp, StepV.observation o], false)) := by
  cases hex : cfg.extract out.messageContent with
  | error e => exact Or.inl ⟨e, by simp [processActions, hex]⟩
  | ok ps =>
    cases ps with
    | responseStep th r => exact Or.inr (Or.inl ⟨th, r, by simp [processActions, hex]⟩)
    | actionStep th a inp =>
      cases hdl : dictLookup cfg.tools a with
      | none => exact Or.inl ⟨PyErr.keyError a, by simp [processActions, hex, hdl]⟩
      | some tool =>
        cases htc : tool.call inp with
        | error e => exact Or.inl ⟨e, by simp [processActions, hex, hdl, htc]⟩
        | ok toolOut =>
          exact Or.inr (Or.inr ⟨th, a, inp, toolOut, by simp [processActions, hex, hdl, htc]⟩)

theorem runLoop_llmCount (cfg : AgentCfg Prompt) (m : PyStr) (mem : List ChatMessageV) :
    ∀ (fuel i : Nat) (trace : List StepV) (evs : List Event),
      llmCount (runLoop cfg m mem fuel i trace evs).2 ≤ llmCount evs + fuel := by
  intro fuel
  induction fuel with
  | zero =>
    intro i trace evs
    simp [runLoop]
  | succ f ih =>
    intro i trace evs
    simp only [runLoop]
    cases hpa : processActions cfg (applyRewrite m (cfg.llm i (cfg.fmt mem trace))) with
    | error e =>
      simp [llmCount, List.countP_append]
    | ok pair =>
      obtain ⟨steps, isDone⟩ := pair
      cases isDone with
      | true =>
        simp [llmCount, List.countP_append]
      | false =>
        simp only [Bool.false_eq_true, if_false]
        have h2 := ih (i + 1) (trace ++ steps) (evs ++ [Event.llmCallE])
        have h3 : llmCount (evs ++ [Event.llmCallE]) = llmCount evs + 1 := by
          simp [llmCount, List.countP_append]
        omega

theorem runLoop_putCount (cfg : AgentCfg Prompt) (m : PyStr) (mem : List ChatMessageV) :
    ∀ (fuel i : Nat) (trace : List StepV) (evs : List Event),
      putCount (runLoop cfg m mem fuel i trace evs).2 = putCount evs := by
  intro fuel
  induction fuel with
  | zero =>
    intro i trace evs
    simp [runLoop]
  | succ f ih =>
    intro i trace evs
    simp only [runLoop]
    cases hpa : processActions cfg (applyRewrite m (cfg.llm i (cfg.fmt mem trace))) with
    | error e =>
      simp [putCount, List.countP_append]
    | ok pair =>
      obtain ⟨steps, isDone⟩ := pair
      cases isDone with
      | true =>
        simp [putCount, List.countP_append]
      | false =>
        simp only [Bool.false_eq_true, if_false]
        rw [ih (i + 1) (trace ++ steps) (evs ++ [Event.llmCallE])]
        simp [putCount, List.countP_append]

/-- When every round dispatches successfully and is non-terminal, the loop
finishes all its rounds and returns normally. -/
theorem runLoop_all_ok (cfg : AgentCfg Prompt) (m : PyStr) (mem : List ChatMessageV)
    (H : ∀ out : ChatResponseV, ∃ steps, processActions cfg out = Except.ok (steps, false)) :
    ∀ (fuel i : Nat) (trace : List StepV) (evs : List Event),
      ∃ tr evs2, runLoop cfg m mem fuel i trace evs = (Except.ok tr, evs2)
        ∧ llmCount evs2 = llmCount evs + fuel := by
  intro fuel
  induction fuel with
  | zero =>
    intro i trace evs
    exact ⟨trace, evs, rfl, by omega⟩
  | succ f ih =>
    intro i trace evs
    obtain ⟨steps, hs⟩ := H (applyRewrite m (cfg.llm i (cfg.fmt mem trace)))
    simp only [runLoop, hs, Bool.false_eq_true, if_false]
    obtain ⟨tr, evs2, heq, hcount⟩ := ih (i + 1) (trace ++ steps) (evs ++ [Event.llmCallE])
    refine ⟨tr, evs2, heq, ?_⟩
    have h3 : llmCount (evs ++ [Event.llmCallE]) = llmCount evs + 1 := by
      simp [llmCount, List.countP_append]
    omega

/-- Shape of a normally returning loop: the trace extends the entry trace and
either ends in exactly one terminal step after paired rounds, or stays paired
with every round of fuel spent on a backend call. -/
theorem runLoop_ok_shape (cfg : AgentCfg Prompt) (m : PyStr) (mem : List ChatMessageV) :
    ∀ (fuel i : Nat) (trace : List StepV) (evs : List Event) (tr : List StepV)
      (evs2 : List Event),
      Paired trace →
      runLoop cfg m mem fuel i trace evs = (Except.ok tr, evs2) →
      (∃ pre th r, tr = pre ++ [StepV.response th r] ∧ Paired pre)
      ∨ (Paired tr ∧ llmCount evs2 = llmCount evs + fuel) := by
  intro fuel
  induction fuel with
  | zero =>
    intro i trace evs tr evs2 hpaired heq
    simp only [runLoop, Prod.mk.injEq, Except.ok.injEq] at heq
    obtain ⟨h1, h2⟩ := heq
    subst h1
    subst h2
    exact Or.inr ⟨hpaired, by omega⟩
  | succ f ih =>
    intro i trace evs tr evs2 hpaired heq
    rcases processActions_shape cfg (applyRewrite m (cfg.llm i (cfg.fmt mem trace)))
      with ⟨e, hpa⟩ | ⟨th, r, hpa⟩ | ⟨th, a, inp, o, hpa⟩
    · simp only [runLoop, hpa, Prod.mk.injEq] at heq
      exact absurd heq.1 (by simp)
    · simp only [runLoop, hpa, if_true, Prod.mk.injEq, Except.ok.injEq] at heq
      obtain ⟨h1, h2⟩ := heq
      subst h1
      exact Or.inl ⟨trace, th, r, rfl, hpaired⟩
    · simp only [runLoop, hpa, Bool.false_eq_true, if_false] at heq
      have hpaired2 := Paired.append_pair trace hpaired th a inp o
      rcases ih (i + 1) (trace ++ [StepV.action th a inp, StepV.observation o])
          (evs ++ [Event.llmCallE]) tr evs2 hpaired2 heq with h | ⟨hp, hc⟩
      · exact Or.inl h
      · refine Or.inr ⟨hp, ?_⟩
        have h4 : llmCount (evs ++ [Event.llmCallE]) = llmCount evs + 1 := by
          simp [llmCount, List.countP_append]
        omega

end LoopLemmas

/-! ## Claims about the agent loop -/

theorem putCount_append (a b : List Event) : putCount (a ++ b) = putCount a + putCount b := by
  simp [putCount, List.countP_append]

theorem llmCount_append (a b : List Event) : llmCount (a ++ b) = llmCount a + llmCount b := by
  simp [llmCount, List.countP_append]

theorem respCount_append (a b : List StepV) : respCount (a ++ b) = respCount a + respCount b := by
  simp [respCount, List.countP_append]

theorem putCount_putE (role : Role) : putCount [Event.putE role] = 1 := rfl

theorem llmCount_putE (role : Role) : llmCount [Event.putE role] = 0 := rfl

theorem respCount_single (th r : PyStr) : respCount [StepV.response th r] = 1 := rfl

section ClaimsLoop

variable {Prompt : Type}

/-- C1 (corrected): dispatching an action name absent from the registry does
not record an ObservationStep — the plain registry subscript
`self._tools_dict[...]` raises a `KeyError` that propagates out of
`_process_actions`. -/
theorem c1_unknown_tool_raises (cfg : AgentCfg Prompt) (out : ChatResponseV)
    (th a : PyStr) (inp : List (PyStr × JVal))
    (hex : cfg.extract out.messageContent = Except.ok (ParsedStep.actionStep th a inp))
    (hmiss : dictLookup cfg.tools a = none) :
    processActions cfg out = Except.error (PyErr.keyError a) := by
  simp [processActions, hex, hmiss]

/-- C2 (corrected): an exception raised by the tool is not caught — there is
no `try`/`except` around `tool.call`, so it propagates out of
`_process_actions` instead of becoming an observation. -/
theorem c2_tool_error_propagates (cfg : AgentCfg Prompt) (out : ChatResponseV)
    (th a : PyStr) (inp : List (PyStr × JVal)) (tool : ToolV) (e : PyErr)
    (hex : cfg.extract out.messageContent = Except.ok (ParsedStep.actionStep th a inp))
    (hfound : dictLookup cfg.tools a = some tool)
    (hraise : tool.call inp = Except.error e) :
    processActions cfg out = Except.error e := by
  simp [processActions, hex, hfound, hraise]

/-- C3 (confirmed; `_get_response` is framework code outside the provided
sources, modelled from the spec as a total best-effort function of the trace):
when every round dispatches successfully and no terminal step ever appears,
all `max_iterations` rounds run (exactly that many backend calls happen) and
the exhausted budget is not an error path — `chat` still returns the
best-effort response derived from the accumulated reasoning trace. -/
theorem c3_budget_exhaustion_returns (cfg : AgentCfg Prompt) (message : PyStr)
    (chatHistory : Option (List ChatMessageV)) (initMem : List ChatMessageV)
    (H : ∀ out : ChatResponseV, ∃ steps, processActions cfg out = Except.ok (steps, false)) :
    (chat cfg message chatHistory initMem).result
      = Except.ok (cfg.getResponse (chat cfg message chatHistory initMem).trace)
    ∧ llmCount (chat cfg message chatHistory initMem).events = cfg.maxIterations := by
  obtain ⟨tr, evs2, hrl, hcount⟩ := runLoop_all_ok cfg message
    (memAfterUserPut message chatHistory initMem) H cfg.maxIterations 0 []
    (initialEvents chatHistory)
  have hini : llmCount (initialEvents chatHistory) = 0 := by
    cases chatHistory <;> rfl
  constructor
  · simp [chat, hrl]
  · simp only [chat, hrl]
    rw [llmCount_append, llmCount_putE]
    omega

/-- C6 (corrected): a turn that returns normally performs exactly two Chat
Memory puts (augmented user message before the loop, assistant message after),
regardless of the number of iterations; a turn aborted by a propagated
dispatch exception has performed only the initial user put. -/
theorem c6_put_count (cfg : AgentCfg Prompt) (message : PyStr)
    (chatHistory : Option (List ChatMessageV)) (initMem : List ChatMessageV) :
    putCount (chat cfg message chatHistory initMem).events
      = (match (chat cfg message chatHistory initMem).result with
         | Except.ok _ => 2
         | Except.error _ => 1) := by
  have hini : putCount (initialEvents chatHistory) = 1 := by
    cases chatHistory <;> rfl
  cases hrl : runLoop cfg message (memAfterUserPut message chatHistory initMem)
      cfg.maxIterations 0 [] (initialEvents chatHistory) with
  | mk res evs2 =>
    have hput : putCount evs2 = 1 := by
      have h2 := runLoop_putCount cfg message (memAfterUserPut message chatHistory initMem)
        cfg.maxIterations 0 [] (initialEvents chatHistory)
      rw [hrl] at h2
      simpa [hini] using h2
    cases res with
    | error e => simp [chat, hrl, hput]
    | ok tr => simp [chat, hrl, putCount_append, hput, putCount_putE]

/-- C7 (confirmed): the controller makes at most `max_iterations` calls to the
language-model backend per turn, for any model and tool behavior and on every
termination path (terminal step, exhausted budget, or propagated exception).
-/
theorem c7_bounded_llm_calls (cfg : AgentCfg Prompt) (message : PyStr)
    (chatHistory : Option (List ChatMessageV)) (initMem : List ChatMessageV) :
    llmCount (chat cfg message chatHistory initMem).events ≤ cfg.maxIterations := by
  have hini : llmCount (initialEvents chatHistory) = 0 := by
    cases chatHistory <;> rfl
  have hloop := runLoop_llmCount cfg message (memAfterUserPut message chatHistory initMem)
    cfg.maxIterations 0 [] (initialEvents chatHistory)
  cases hrl : runLoop cfg message (memAfterUserPut message chatHistory initMem)
      cfg.maxIterations 0 [] (initialEvents chatHistory) with
  | mk res evs2 =>
    rw [hrl] at hloop
    rw [hini] at hloop
    have hloop2 : llmCount evs2 ≤ 0 + cfg.maxIterations := hloop
    cases res with
    | error e =>
      simp only [chat, hrl]
      omega
    | ok tr =>
      simp only [chat, hrl]
      rw [llmCount_append, llmCount_putE]
      omega

/-- C9 (confirmed): in a normally returning turn, every observation in the
trace is immediately preceded by an action step — so an observation is never
first and two observations are never adjacent — and the trace either ends in
exactly one terminal step, or contains none and the full iteration budget was
spent on backend calls. -/
theorem c9_trace_invariant (cfg : AgentCfg Prompt) (message : PyStr)
    (chatHistory : Option (List ChatMessageV)) (initMem : List ChatMessageV)
    (hok : resultOk (chat cfg message chatHistory initMem).result = true) :
    ObsPreceded (chat cfg message chatHistory initMem).trace ∧
      ((respCount (chat cfg message chatHistory initMem).trace = 1 ∧
        ∃ th r, (chat cfg message chatHistory initMem).trace.getLast?
          = some (StepV.response th r))
       ∨ (respCount (chat cfg message chatHistory initMem).trace = 0 ∧
          llmCount (chat cfg message chatHistory initMem).events = cfg.maxIterations)) := by
  have hini : llmCount (initialEvents chatHistory) = 0 := by
    cases chatHistory <;> rfl
  cases hrl : runLoop cfg message (memAfterUserPut message chatHistory initMem)
      cfg.maxIterations 0 [] (initialEvents chatHistory) with
  | mk res evs2 =>
    cases res with
    | error e =>
      rw [chat] at hok
      simp [hrl, resultOk] at hok
    | ok tr =>
      have hshape := runLoop_ok_shape cfg message (memAfterUserPut message chatHistory initMem)
        cfg.maxIterations 0 [] (initialEvents chatHistory) tr evs2 Paired.nil hrl
      rcases hshape with ⟨pre, th, r, htr, hpre⟩ | ⟨hpaired, hcount⟩
      · subst htr
        refine ⟨?_, Or.inl ⟨?_, ?_⟩⟩
        · simp only [chat, hrl]
          exact ObsPreceded.concat_resp pre (Paired.obsPreceded pre hpre) th r
        · simp only [chat, hrl]
          rw [respCount_append, Paired.respCount_zero pre hpre, respCount_single]
        · simp only [chat, hrl]
          exact ⟨th, r, List.getLast?_concat pre⟩
      · refine ⟨?_, Or.inr ⟨?_, ?_⟩⟩
        · simp only [chat, hrl]
          exact Paired.obsPreceded tr hpaired
        · simp only [chat, hrl]
          exact Paired.respCount_zero tr hpaired
        · simp only [chat, hrl]
          rw [llmCount_append, llmCount_putE]
          omega

end ClaimsLoop

/-- C8 (confirmed): the rewrite step mutates only the freshly allocated deep
copy; the object the backend returned is left untouched, whether or not a
rewrite is applied. -/
theorem c8_original_not_mutated (message : PyStr) (h : RespHeap) (respRef : Nat)
    (hvalid : respRef < h.next) :
    ((rewriteOnHeap message h respRef).2).mem respRef = h.mem respRef := by
  have hne : respRef ≠ h.next := Nat.ne_of_lt hvalid
  unfold rewriteOnHeap
  simp only [heapAlloc, heapWriteRaw, heapWriteMsg, if_pos rfl]
  cases htr : tryRewrite message (h.mem respRef).rawContent with
  | some c => simp [htr, hne]
  | none => simp [htr, hne]

/-- Witness for C8 on a concrete one-object store. -/
theorem c8_witness :
    0 < wHeap.next ∧ ((rewriteOnHeap wQ wHeap 0).2).mem 0 = wHeap.mem 0 :=
  ⟨Nat.zero_lt_one, c8_original_not_mutated wQ wHeap 0 Nat.zero_lt_one⟩

/-- C1 counterexample: with the requested action name absent from the
registry, the turn aborts with a propagated `KeyError` — no ObservationStep is
recorded and the conversation does not continue (only one of the allowed three
backend calls happens, and the trace is discarded). -/
theorem c1_counterexample :
    (chat cfgUnknownTool wQ none []).result = Except.error (PyErr.keyError wMissingTool)
    ∧ (chat cfgUnknownTool wQ none []).events = [Event.putE Role.user, Event.llmCallE] := by
  exact ⟨rfl, rfl⟩

/-- Witness for C1's amended statement on the concrete unknown-tool agent. -/
theorem c1_witness :
    cfgUnknownTool.extract wResp0.messageContent
      = Except.ok (ParsedStep.actionStep wThought wMissingTool []) ∧
    dictLookup cfgUnknownTool.tools wMissingTool = none ∧
    processActions cfgUnknownTool wResp0 = Except.error (PyErr.keyError wMissingTool) :=
  ⟨rfl, rfl, c1_unknown_tool_raises cfgUnknownTool wResp0 wThought wMissingTool [] rfl rfl⟩

/-- C2 counterexample: a raising tool aborts the whole turn — the exception
escapes `dispatch` and `chat` instead of being stringified into an
observation. -/
theorem c2_counterexample :
    (chat cfgRaisingTool wQ none []).result = Except.error (PyErr.toolError wBoom)
    ∧ (chat cfgRaisingTool wQ none []).events = [Event.putE Role.user, Event.llmCallE] := by
  exact ⟨rfl, rfl⟩

/-- Witness for C2's amended statement on the concrete raising-tool agent. -/
theorem c2_witness :
    cfgRaisingTool.extract wResp0.messageContent
      = Except.ok (ParsedStep.actionStep wThought wToolName []) ∧
    dictLookup cfgRaisingTool.tools wToolName = some raisingTool ∧
    raisingTool.call [] = Except.error (PyErr.toolError wBoom) ∧
    processActions cfgRaisingTool wResp0 = Except.error (PyErr.toolError wBoom) :=
  ⟨rfl, rfl, rfl,
    c2_tool_error_propagates cfgRaisingTool wResp0 wThought wToolName [] raisingTool
      (PyErr.toolError wBoom) rfl rfl rfl⟩

/-- Witness for C3 on an agent that loops to budget exhaustion. -/
theorem c3_witness :
    (∀ out : ChatResponseV, ∃ steps,
        processActions cfgLooping out = Except.ok (steps, false)) ∧
    ((chat cfgLooping wQ none []).result
      = Except.ok (cfgLooping.getResponse (chat cfgLooping wQ none []).trace)
    ∧ llmCount (chat cfgLooping wQ none []).events = cfgLooping.maxIterations) := by
  have H : ∀ out : ChatResponseV, ∃ steps,
      processActions cfgLooping out = Except.ok (steps, false) :=
    fun out => ⟨[StepV.action wThought wToolName [], StepV.observation wHi], rfl⟩
  exact ⟨H, c3_budget_exhaustion_returns cfgLooping wQ none [] H⟩

/-- C6 counterexample: on a turn aborted by the propagated dispatch exception
only the initial user put has happened — the claimed "exactly two puts on
every invocation" fails. -/
theorem c6_counterexample :
    putCount (chat cfgUnknownTool wQ none []).events = 1 := by
  exact rfl

/-- Witness for C9 on an agent that terminates on its first iteration. -/
theorem c9_witness :
    resultOk (chat cfgDone wQ none []).result = true ∧
    (ObsPreceded (chat cfgDone wQ none []).trace ∧
      ((respCount (chat cfgDone wQ none []).trace = 1 ∧
        ∃ th r, (chat cfgDone wQ none []).trace.getLast?
          = some (StepV.response th r))
       ∨ (respCount (chat cfgDone wQ none []).trace = 0 ∧
          llmCount (chat cfgDone wQ none []).events = cfgDone.maxIterations))) :=
  ⟨rfl, c9_trace_invariant cfgDone wQ none [] rfl⟩

end RagAgent
